import Mathlib

/-!
Verification of the authentication and session core of the repository
(`src/utils/environment.ts` / `src/utils/auth.ts`, the `/api/auth/me` and
`/api/auth/login` route handlers).

The TypeScript functions are shallowly embedded as executable Lean
definitions.  Platform primitives that the code calls but does not define
(Web Crypto HMAC-SHA256 and PBKDF2, `TextEncoder`, `JSON.stringify` /
`JSON.parse`) are passed in as explicit function parameters; everything
else (base64url, hex encoding, cookie parsing, splitting, the rate
limiter, the handler decision chains) is translated directly from the
source.  JavaScript strings are modelled as Lean `String` / `List Char`
(all inputs relevant to the claims are ASCII, where the two models agree),
and byte values as `Nat` with explicit `< 256` bounds.
-/

namespace TanstackAuth

/-- The common JavaScript whitespace characters: those matched by `\s` and
trimmed by `String.prototype.trim` (ASCII whitespace plus NBSP, BOM and the
two line separators). -/
def isJsWhitespace (c : Char) : Bool :=
  c == ' ' || c == '\t' || c == '\n' || c == '\r' || c == '\x0b' || c == '\x0c' ||
  c == Char.ofNat 0xa0 || c == Char.ofNat 0x2028 || c == Char.ofNat 0x2029 ||
  c == Char.ofNat 0xfeff

/-- JavaScript line terminators, which `.` in a regular expression does not
match. -/
def isLineTerminator (c : Char) : Bool :=
  c == '\n' || c == '\r' || c == Char.ofNat 0x2028 || c == Char.ofNat 0x2029

/-- `String.prototype.split(sep)` for a one-character separator, on char
lists.  `"".split(sep)` is `[""]`, and separators at the ends produce empty
segments, exactly as in JavaScript. -/
def splitOnChar (sep : Char) : List Char → List (List Char)
  | [] => [[]]
  | c :: rest =>
    if c = sep then [] :: splitOnChar sep rest
    else
      match splitOnChar sep rest with
      | [] => [[c]]
      | s :: ss => (c :: s) :: ss

/-- `String.prototype.trim` on char lists. -/
def jsTrimList (l : List Char) : List Char :=
  ((l.dropWhile isJsWhitespace).reverse.dropWhile isJsWhitespace).reverse

/-- `String.prototype.trim`. -/
def jsTrim (s : String) : String := String.mk (jsTrimList s.data)

/-- `String.prototype.toLowerCase`, restricted to the ASCII letters (the
only ones appearing in the inputs the claims are about). -/
def asciiLowerChar (c : Char) : Char :=
  if 'A' ≤ c ∧ c ≤ 'Z' then Char.ofNat (c.toNat + 32) else c

/-- `String.prototype.toLowerCase` (ASCII). -/
def jsToLowerCase (s : String) : String := String.mk (s.data.map asciiLowerChar)

/-! ## Hex encoding (PasswordHasher storage format)

`hashPassword` stores `salt‖derivedKey` as
`Array.from(combined).map(b => b.toString(16).padStart(2, '0')).join('')`;
`verifyPassword` decodes with `hash.match(/.{1,2}/g)!.map(b => parseInt(b, 16))`
fed into a `Uint8Array`. -/

/-- Numeric value of one hexadecimal digit (`parseInt` accepts both cases). -/
def hexDigitVal (c : Char) : Option Nat :=
  if '0' ≤ c ∧ c ≤ '9' then some (c.toNat - 48)
  else if 'a' ≤ c ∧ c ≤ 'f' then some (c.toNat - 87)
  else if 'A' ≤ c ∧ c ≤ 'F' then some (c.toNat - 55)
  else none

/-- Lower-case hex digit, as produced by `Number.prototype.toString(16)`. -/
def hexDigitChar (n : Nat) : Char :=
  if n < 10 then Char.ofNat (48 + n) else Char.ofNat (87 + n)

/-- `b.toString(16).padStart(2, '0')` for a byte `b < 256`. -/
def byteToHexPair (b : Nat) : List Char :=
  [hexDigitChar (b / 16), hexDigitChar (b % 16)]

/-- The hex encoding used by `hashPassword` for the combined salt‖key bytes. -/
def hexEncodeBytes (bs : List Nat) : List Char :=
  (bs.map byteToHexPair).flatten

/-- `str.match(/.{1,2}/g)`: greedily take two characters at a time, skipping
line terminators (which `.` does not match); a lone trailing character forms
a one-character chunk.  An empty result corresponds to `match` returning
`null`. -/
def chunks12 : List Char → List (List Char)
  | [] => []
  | a :: rest =>
    if isLineTerminator a then chunks12 rest
    else
      match rest with
      | [] => [[a]]
      | b :: rest2 =>
        if isLineTerminator b then [a] :: chunks12 rest2
        else [a, b] :: chunks12 rest2

/-- `ToUint8` coercion applied by `Uint8Array` to each stored element. -/
def toUint8 (i : Int) : Nat := (i % 256).toNat

/-- `parseInt(chunk, 16)` followed by the `Uint8Array` coercion, for the one-
or two-character chunks produced by `/.{1,2}/g`.  `parseInt` skips leading
whitespace, accepts a sign, parses the longest hex-digit prefix, and yields
`NaN` (which `Uint8Array` stores as `0`) when no digit is found. -/
def parseChunkByte (l : List Char) : Nat :=
  match l with
  | [c] =>
    match hexDigitVal c with
    | some v => v
    | none => 0
  | [c1, c2] =>
    match hexDigitVal c1 with
    | some v1 =>
      match hexDigitVal c2 with
      | some v2 => v1 * 16 + v2
      | none => v1
    | none =>
      if c1 = '+' then
        match hexDigitVal c2 with
        | some v2 => v2
        | none => 0
      else if c1 = '-' then
        match hexDigitVal c2 with
        | some v2 => toUint8 (-(v2 : Int))
        | none => 0
      else if isJsWhitespace c1 then
        match hexDigitVal c2 with
        | some v2 => v2
        | none => 0
      else 0
  | _ => 0

/-- The byte list `verifyPassword` reconstructs from a stored hash string. -/
def hexDecodeBytesLoose (l : List Char) : List Nat :=
  (chunks12 l).map parseChunkByte

/-! ## base64 / base64url (TokenCodec encoding) -/

/-- Standard base64 alphabet character for a sextet. -/
def b64Char (n : Nat) : Char :=
  if n < 26 then Char.ofNat (65 + n)
  else if n < 52 then Char.ofNat (97 + (n - 26))
  else if n < 62 then Char.ofNat (48 + (n - 52))
  else if n = 62 then '+'
  else '/'

/-- Sextet value of a standard base64 alphabet character. -/
def b64Val (c : Char) : Option Nat :=
  if 'A' ≤ c ∧ c ≤ 'Z' then some (c.toNat - 65)
  else if 'a' ≤ c ∧ c ≤ 'z' then some (c.toNat - 71)
  else if '0' ≤ c ∧ c ≤ '9' then some (c.toNat + 4)
  else if c = '+' then some 62
  else if c = '/' then some 63
  else none

/-- `btoa` on a byte sequence: standard base64 with `=` padding. -/
def b64Encode : List Nat → List Char
  | [] => []
  | [b1] => [b64Char (b1 / 4), b64Char (b1 % 4 * 16), '=', '=']
  | [b1, b2] => [b64Char (b1 / 4), b64Char (b1 % 4 * 16 + b2 / 16), b64Char (b2 % 16 * 4), '=']
  | b1 :: b2 :: b3 :: rest =>
    b64Char (b1 / 4) :: b64Char (b1 % 4 * 16 + b2 / 16) ::
      b64Char (b2 % 16 * 4 + b3 / 64) :: b64Char (b3 % 64) :: b64Encode rest

/-- `atob` (forgiving base64 decode, without the whitespace-stripping step):
the input length must be a multiple of four, `=` may appear only as final
padding, and nonzero leftover padding bits are discarded.  `none` models the
`InvalidCharacterError` that `atob` throws. -/
def b64Decode : List Char → Option (List Nat)
  | [] => some []
  | c1 :: c2 :: c3 :: c4 :: rest =>
    match b64Val c1, b64Val c2 with
    | some v1, some v2 =>
      if c3 = '=' then
        if c4 = '=' ∧ rest = [] then some [v1 * 4 + v2 / 16] else none
      else
        match b64Val c3 with
        | some v3 =>
          if c4 = '=' then
            if rest = [] then some [v1 * 4 + v2 / 16, v2 % 16 * 16 + v3 / 4] else none
          else
            match b64Val c4 with
            | some v4 =>
              match b64Decode rest with
              | some bs =>
                some ((v1 * 4 + v2 / 16) :: (v2 % 16 * 16 + v3 / 4) :: (v3 % 4 * 64 + v4) :: bs)
              | none => none
            | none => none
        | none => none
    | _, _ => none
  | _ => none

/-- The replacement step of `base64UrlEncode`: plus becomes dash and slash
becomes underscore. -/
def urlOfB64Char (c : Char) : Char :=
  if c = '+' then '-' else if c = '/' then '_' else c

/-- The replacement step of `base64UrlDecode`: dash becomes plus and
underscore becomes slash. -/
def b64OfUrlChar (c : Char) : Char :=
  if c = '-' then '+' else if c = '_' then '/' else c

/-- `base64UrlEncode` on bytes: standard base64, `+` and `/` replaced, all
`=` removed. -/
def base64UrlEncodeBytes (bs : List Nat) : List Char :=
  ((b64Encode bs).map urlOfB64Char).filter (fun c => c != '=')

/-- `base64UrlDecode(str, true)`: map the url alphabet back, re-pad to a
multiple of four with `=`, and run `atob`. -/
def base64UrlDecodeBytes (s : List Char) : Option (List Nat) :=
  let b := s.map b64OfUrlChar
  b64Decode (b ++ List.replicate ((4 - b.length % 4) % 4) '=')

/-- The binary string `atob` returns: each byte as the character with that
code point (`base64UrlDecode` with `asArrayBuffer = false`). -/
def latin1String (bs : List Nat) : String := String.mk (bs.map Char.ofNat)

/-! ## PasswordHasher (`hashPassword` / `verifyPassword`)

`crypto.subtle.deriveBits` (PBKDF2-HMAC-SHA256, 100,000 iterations,
256-bit output) is a platform primitive; it is passed in as a function
`pbkdf2 : String → List Nat → List Nat` from password and salt to the
derived key.  The random 16-byte salt drawn by `hashPassword` is likewise
an explicit argument. -/

/-- The constant-time comparison loop of `verifyPassword`: OR-accumulate the
XOR of each byte pair and compare the result with zero. -/
def ctEqBytes (a b : List Nat) : Bool :=
  ((a.zip b).foldl (fun acc p => acc ||| (p.1 ^^^ p.2)) 0) == 0

/-- `hashPassword`: hex encoding of salt‖derivedKey. -/
def hashPassword (pbkdf2 : String → List Nat → List Nat)
    (password : String) (salt : List Nat) : String :=
  String.mk (hexEncodeBytes (salt ++ pbkdf2 password salt))

/-- `verifyPassword`: split the stored hash into two-character chunks, parse
each with `parseInt(·, 16)` into a `Uint8Array`, take the first 16 bytes as
salt and the rest as the stored key, re-derive, length-check and compare in
constant time.  Any exception (in particular the `null.map` on an empty
`match` result) is caught and becomes `false`. -/
def verifyPassword (pbkdf2 : String → List Nat → List Nat)
    (password hash : String) : Bool :=
  let chunks := chunks12 hash.data
  if chunks.isEmpty then false
  else
    let hashBytes := chunks.map parseChunkByte
    let salt := hashBytes.take 16
    let storedHash := hashBytes.drop 16
    let computedHash := pbkdf2 password salt
    if computedHash.length ≠ storedHash.length then false
    else ctEqBytes computedHash storedHash

/-! ## TokenCodec (`createJWT` / `verifyJWT`) -/

/-- The JWT payload record (`userId`, `email`, `exp`, `iat`, all integer
seconds for the timestamps). -/
structure JWTPayload where
  userId : String
  email : String
  exp : Nat
  iat : Nat
deriving DecidableEq, Repr

/-- The platform primitives `createJWT` / `verifyJWT` depend on:
HMAC-SHA256 (`crypto.subtle.sign` over message and secret, returning the
32 raw bytes), `TextEncoder.encode` (UTF-8 bytes of a string), and the
JSON serialisation of the payload (`JSON.stringify` / `JSON.parse`). -/
structure JwtEnv where
  hmacSha256 : String → String → List Nat
  utf8Encode : String → List Nat
  stringifyPayload : JWTPayload → String
  parsePayload : String → Option JWTPayload

/-- `JSON.stringify({ alg: 'HS256', typ: 'JWT' })`. -/
def jwtHeaderJson : String := "\x7b\"alg\":\"HS256\",\"typ\":\"JWT\"\x7d"

/-- `base64UrlEncode` applied to a string (UTF-8 encode, then base64url). -/
def base64UrlEncodeStr (E : JwtEnv) (s : String) : String :=
  String.mk (base64UrlEncodeBytes (E.utf8Encode s))

/-- The payload `createJWT` builds at time `now`: `iat = now`,
`exp = now + 7 * 24 * 60 * 60`. -/
def jwtPayloadAt (userId email : String) (now : Nat) : JWTPayload :=
  ⟨userId, email, now + 7 * 24 * 60 * 60, now⟩

/-- `createJWT`: base64url header and payload, dot-joined, HMAC-signed,
with the base64url signature as third segment. -/
def createJWT (E : JwtEnv) (userId email secret : String) (now : Nat) : String :=
  let payload := jwtPayloadAt userId email now
  let encodedHeader := base64UrlEncodeStr E jwtHeaderJson
  let encodedPayload := base64UrlEncodeStr E (E.stringifyPayload payload)
  let message := encodedHeader ++ "." ++ encodedPayload
  let signatureSeg := String.mk (base64UrlEncodeBytes (E.hmacSha256 message secret))
  message ++ "." ++ signatureSeg

/-- The body of `verifyJWT` once the first three segments of
`token.split('.')` have been destructured (factored out so lemmas can name
it): any empty segment rejects; the signature segment is decoded and
compared with the recomputed HMAC (`crypto.subtle.verify`); only then is
the payload segment base64url-decoded, `JSON.parse`d and checked for
expiry.  Every thrown exception is caught and becomes `null`, modelled as
`none`. -/
def verifySegments (E : JwtEnv) (h p s : List Char) (secret : String) (now : Nat) :
    Option JWTPayload :=
  if h.isEmpty ∨ p.isEmpty ∨ s.isEmpty then none
  else
    let message := String.mk h ++ "." ++ String.mk p
    match base64UrlDecodeBytes s with
    | none => none
    | some sigBytes =>
      if sigBytes = E.hmacSha256 message secret then
        match base64UrlDecodeBytes p with
        | none => none
        | some payloadBytes =>
          match E.parsePayload (latin1String payloadBytes) with
          | none => none
          | some payload => if payload.exp < now then none else some payload
      else none

/-- `verifyJWT`: `const [encodedHeader, encodedPayload, signature] =
token.split('.')` — segments beyond the third are dropped by the
destructuring, a missing segment is `undefined` and fails the falsy
check — followed by the signature, payload and expiry processing of
`verifySegments`. -/
def verifyJWT (E : JwtEnv) (token secret : String) (now : Nat) : Option JWTPayload :=
  let parts := splitOnChar '.' token.data
  match parts.get? 0, parts.get? 1, parts.get? 2 with
  | some h, some p, some s => verifySegments E h p s secret now
  | _, _, _ => none

/-! ## Relational store (`getUserById`) and SessionStore -/

/-- A row of the `users` table (the shape `getUserByEmail` selects). -/
structure AuthUser where
  id : String
  email : String
  password_hash : String
  display_name : String
  created_at : String
  updated_at : String
  is_active : Bool
deriving DecidableEq, Repr

/-- The public column set `getUserById` selects (no `password_hash`). -/
structure User where
  id : String
  email : String
  display_name : String
  created_at : String
  updated_at : String
  is_active : Bool
deriving DecidableEq, Repr

/-- Projection to the selected columns. -/
def AuthUser.toPublic (u : AuthUser) : User :=
  ⟨u.id, u.email, u.display_name, u.created_at, u.updated_at, u.is_active⟩

/-- `getUserById`: `SELECT id, email, display_name, created_at, updated_at,
is_active FROM users WHERE id = ? AND is_active = 1`, `first()` giving the
first matching row or `null`. -/
def getUserById (users : List AuthUser) (id : String) : Option User :=
  (users.find? fun u => u.id == id && u.is_active).map AuthUser.toPublic

/-- The key under which a session is stored in the key-value store. -/
def sessionKey (token : String) : String := "session:" ++ token

/-- `createSession`: `kv.put('session:' + token, userId, ttl)`.  The TTL
bookkeeping of the key-value collaborator is abstracted into the map state. -/
def createSession (kv : String → Option String) (userId token : String) :
    String → Option String :=
  fun k => if k = sessionKey token then some userId else kv k

/-- `getSessionUser`: `kv.get('session:' + token)`. -/
def getSessionUser (kv : String → Option String) (token : String) : Option String :=
  kv (sessionKey token)

/-- `deleteSession`: `kv.delete('session:' + token)`. -/
def deleteSession (kv : String → Option String) (token : String) :
    String → Option String :=
  fun k => if k = sessionKey token then none else kv k

/-! ## The `/api/auth/me` handler -/

/-- Cookie header parsing in the me-handler: split on semicolons, trim each
pair, split on the equals sign; the key is the part before the first
equals sign and the value the part between the first and second one
(`none` when there is no equals sign, modelling `undefined`). -/
def cookiePairList (header : String) : List (String × Option String) :=
  (splitOnChar ';' header.data).map fun ck =>
    let t := jsTrimList ck
    let parts := splitOnChar '=' t
    (String.mk (parts.headD []), (parts.get? 1).map String.mk)

/-- `cookies[key]` after the `reduce`: the last assignment to `key` wins;
`none` models both a missing key and an `undefined` value. -/
def cookieLookup (header key : String) : Option String :=
  match ((cookiePairList header).filter fun pr => pr.1 == key).getLast? with
  | none => none
  | some pr => pr.2

/-- Outcome of the me-handler: the public user object, or the
`(code, httpStatus)` of the `SecurityError` thrown. -/
inductive MeResult where
  | ok (user : User)
  | err (code : String) (status : Nat)
deriving DecidableEq, Repr

/-- The GET `/api/auth/me` handler decision chain: cookie present → token
present → signature/expiry valid → session live and bound to the payload's
`userId` → user found (active only) → re-check `is_active` → respond with
the public fields. -/
def whoamiHandler (E : JwtEnv) (users : List AuthUser) (kv : String → Option String)
    (secret : String) (cookieHeader : Option String) (now : Nat) : MeResult :=
  match cookieHeader with
  | none => .err "NO_AUTH_COOKIE" 401
  | some header =>
    if header = "" then .err "NO_AUTH_COOKIE" 401
    else
      match cookieLookup header "auth-token" with
      | none => .err "NO_AUTH_TOKEN" 401
      | some token =>
        if token = "" then .err "NO_AUTH_TOKEN" 401
        else
          match verifyJWT E token secret now with
          | none => .err "INVALID_TOKEN" 401
          | some payload =>
            match getSessionUser kv token with
            | none => .err "SESSION_NOT_FOUND" 401
            | some sessionUserId =>
              if sessionUserId = "" ∨ sessionUserId ≠ payload.userId then
                .err "SESSION_NOT_FOUND" 401
              else
                match getUserById users payload.userId with
                | none => .err "USER_NOT_FOUND" 404
                | some user =>
                  if !user.is_active then .err "USER_DEACTIVATED" 403
                  else .ok user

/-! ## RateLimiter -/

/-- One fixed-window record of the limiter's `attempts` map. -/
structure RateRecord where
  count : Nat
  resetTime : Nat
deriving DecidableEq, Repr

/-- `RateLimiter.checkRate`: unknown key or elapsed window initialises
`(count 1, resetTime now + windowMs)` and allows; a full window rejects
without mutation; otherwise the count is incremented and the call allowed.
Returns the decision together with the updated `attempts` map. -/
def checkRate (attempts : String → Option RateRecord) (key : String)
    (maxAttempts windowMs now : Nat) : Bool × (String → Option RateRecord) :=
  match attempts key with
  | none => (true, fun k => if k = key then some ⟨1, now + windowMs⟩ else attempts k)
  | some record =>
    if now > record.resetTime then
      (true, fun k => if k = key then some ⟨1, now + windowMs⟩ else attempts k)
    else if record.count ≥ maxAttempts then (false, attempts)
    else (true, fun k => if k = key then some ⟨record.count + 1, record.resetTime⟩ else attempts k)

/-! ## The login handler's email normalisations -/

/-- The per-email rate-limit key built by the login handler:
`'login:email:' + email.toLowerCase()`. -/
def emailRateLimitKey (email : String) : String :=
  "login:email:" ++ jsToLowerCase email

/-- The email the login handler passes to the credential lookup:
`email.toLowerCase().trim()`. -/
def loginLookupEmail (email : String) : String :=
  jsTrim (jsToLowerCase email)

/-! ## InputValidator (`validateInput`) -/

/-- JavaScript values as they appear in the validated field map
(`data[rule.field]`); `undef` models a missing property. -/
inductive JSValue where
  | undef
  | null
  | str (s : String)
  | num (n : Int)
  | boolean (b : Bool)
deriving DecidableEq, Repr

/-- JavaScript truthiness of a field value. -/
def JSValue.truthy : JSValue → Bool
  | .undef => false
  | .null => false
  | .str s => s != ""
  | .num n => n != 0
  | .boolean b => b

/-- `value.toString()` / the string coercion applied by `RegExp.test`
(only reached on truthy values). -/
def JSValue.toDisplayString : JSValue → String
  | .undef => "undefined"
  | .null => "null"
  | .str s => s
  | .num n => toString n
  | .boolean b => if b then "true" else "false"

/-- `value.length`, defined only for strings (`undefined` otherwise, which
makes every numeric comparison on it false). -/
def jsLength : JSValue → Option Nat
  | .str s => some s.length
  | _ => none

/-- The email format test of `validateInput`: the anchored expression
requires one or more non-whitespace non-at characters, an at sign, and a
tail containing a dot with at least one such character on each side, with
no whitespace and no second at sign anywhere. -/
def emailFormatOk (s : String) : Bool :=
  match splitOnChar '@' s.data with
  | [a, b] =>
    !a.isEmpty && a.all (fun c => !isJsWhitespace c) && b.all (fun c => !isJsWhitespace c) &&
      ((List.range b.length).any fun i =>
        decide (1 ≤ i) && decide (i + 1 < b.length) && b.get? i == some '.')
  | _ => false

/-- The rule `type` field; only `email` carries a check in the source. -/
inductive RuleType where
  | string
  | email
  | number
deriving DecidableEq, Repr

/-- A declarative validation rule.  The regular expression of the `pattern`
rule is abstracted as a string predicate. -/
structure ValidationRule where
  field : String
  required : Bool
  type : Option RuleType
  minLength : Option Nat
  maxLength : Option Nat
  pattern : Option (String → Bool)

/-- The error messages one rule contributes for the field map `data`:
a failing required check short-circuits (the `continue`), and the
type / minLength / maxLength / pattern checks run only inside
`if (value)`, i.e. only for truthy values.  A `minLength` or `maxLength`
of zero is falsy and therefore skipped, exactly as in the source. -/
def fieldErrors (data : String → JSValue) (rule : ValidationRule) : List String :=
  let value := data rule.field
  if rule.required && (!value.truthy || jsTrim value.toDisplayString == "") then
    [rule.field ++ " is required"]
  else if value.truthy then
    (if rule.type == some .email && !emailFormatOk value.toDisplayString then
      [rule.field ++ " must be a valid email"]
    else []) ++
    (match rule.minLength with
     | some m =>
       if m ≠ 0 ∧ (jsLength value).any (fun L => L < m) then
         [rule.field ++ " must be at least " ++ toString m ++ " characters"]
       else []
     | none => []) ++
    (match rule.maxLength with
     | some m =>
       if m ≠ 0 ∧ (jsLength value).any (fun L => L > m) then
         [rule.field ++ " must not exceed " ++ toString m ++ " characters"]
       else []
     | none => []) ++
    (match rule.pattern with
     | some test => if !test value.toDisplayString then [rule.field ++ " format is invalid"] else []
     | none => [])
  else []

/-- `validateInput`'s aggregated result. -/
structure ValidationResult where
  isValid : Bool
  errors : List String
deriving DecidableEq, Repr

/-- `validateInput`: concatenate every rule's errors in declaration order;
valid iff the list is empty. -/
def validateInput (data : String → JSValue) (rules : List ValidationRule) :
    ValidationResult :=
  let errors := (rules.map (fieldErrors data)).flatten
  ⟨errors.isEmpty, errors⟩

/-! ## Concrete instances used to evaluate the development on closed inputs -/

/-- A concrete instantiation of the platform primitives: a constant HMAC of
32 zero bytes, a byte projection for `TextEncoder`, and a JSON codec for the
fixed payload `jwtPayloadAt "u" "e" 1000`. -/
def jwtWitnessEnv : JwtEnv :=
  ⟨fun _ _ => List.replicate 32 0,
    fun s => s.data.map (fun c => c.toNat % 256),
    fun p => p.userId,
    fun _ => some (jwtPayloadAt "u" "e" 1000)⟩

/-- The token minted by `createJWT` under `jwtWitnessEnv` at time 1000. -/
def witnessToken : String := createJWT jwtWitnessEnv "u" "e" "sec" 1000

/-- A cookie header carrying `witnessToken`. -/
def witnessCookie : String := "auth-token=" ++ witnessToken

/-- A key-value state holding exactly the session for `witnessToken`. -/
def witnessKv : String → Option String :=
  createSession (fun _ => none) "u" witnessToken

/-- The header segment of `witnessToken`. -/
def witnessHeaderSeg : List Char := base64UrlEncodeBytes (jwtWitnessEnv.utf8Encode jwtHeaderJson)

/-- The payload segment of `witnessToken` (its witness codec serialises the
payload as its `userId`). -/
def witnessPayloadSeg : List Char := base64UrlEncodeBytes (jwtWitnessEnv.utf8Encode "u")

/-- The signature segment of `witnessToken`. -/
def witnessSigSeg : List Char := base64UrlEncodeBytes (List.replicate 32 0)

/-- A credential row for user `u` that has been deactivated. -/
def witnessDeactivatedUser : AuthUser :=
  ⟨"u", "e@x.com", "ph", "Name", "c", "up", false⟩

/-- The key-value state after the session of `witnessToken` is deleted. -/
def witnessKvDeleted : String → Option String := deleteSession witnessKv witnessToken

/-- A concrete PBKDF2 stand-in with a 32-byte output. -/
def witnessPbkdf2 : String → List Nat → List Nat := fun _ _ => List.replicate 32 7

/-- A concrete 16-byte salt. -/
def witnessSalt : List Nat := List.replicate 16 5

/-- A 96-character stored hash with non-hex content: 32 zeros (a 16-byte
salt of zeros) followed by the chunk `7z` — which `parseInt(.., 16)`
parses to 7 via its longest hex prefix — and 31 copies of `07`.  Its
lenient decoding is 16 zero bytes followed by 32 bytes of value 7. -/
def witnessMalformedNonHexHash : String :=
  "000000000000000000000000000000007z07070707070707070707070707070707070707070707070707070707070707"

/-- A 95-character (odd-length) stored hash: 32 zeros, 31 copies of `07`,
and a lone trailing `7` — the final one-character chunk also parses to 7,
so the lenient decoding is again 16 zero bytes and 32 bytes of value 7. -/
def witnessMalformedOddHash : String :=
  "00000000000000000000000000000000070707070707070707070707070707070707070707070707070707070707077"

/-- Concrete validation rules: a required email field and an optional note
with a minimum length. -/
def witnessValidationRules : List ValidationRule :=
  [⟨"email", true, some .email, some 5, none, none⟩,
    ⟨"note", false, none, some 2, none, none⟩]

/-- A concrete field map whose values are all falsy: a present-but-empty
email string and an absent note. -/
def witnessValidationData : String → JSValue :=
  fun f => if f = "email" then JSValue.str "" else JSValue.undef

/-! ## Lemmas about `splitOnChar` -/

theorem splitOnChar_ne_nil (sep : Char) : ∀ l : List Char, splitOnChar sep l ≠ []
  | [] => by simp [splitOnChar]
  | c :: rest => by
    simp only [splitOnChar]
    split
    · simp
    · match h : splitOnChar sep rest with
      | [] => simp
      | s :: ss => simp

theorem splitOnChar_of_not_mem (sep : Char) :
    ∀ l : List Char, sep ∉ l → splitOnChar sep l = [l]
  | [], _ => rfl
  | c :: rest, h => by
    have hc : ¬c = sep := fun hc => h (hc ▸ List.mem_cons_self c rest)
    have hrest : sep ∉ rest := fun hr => h (List.mem_cons_of_mem c hr)
    simp only [splitOnChar, if_neg hc, splitOnChar_of_not_mem sep rest hrest]

theorem splitOnChar_append (sep : Char) :
    ∀ a b : List Char, sep ∉ a →
      splitOnChar sep (a ++ sep :: b) = a :: splitOnChar sep b
  | [], b, _ => by simp [splitOnChar]
  | c :: a, b, h => by
    have hc : ¬c = sep := fun hc => h (hc ▸ List.mem_cons_self c a)
    have ha : sep ∉ a := fun hr => h (List.mem_cons_of_mem c hr)
    have ih := splitOnChar_append sep a b ha
    simp only [List.cons_append, splitOnChar, if_neg hc, List.append_eq, ih]

theorem not_mem_of_mem_splitOnChar (sep : Char) :
    ∀ l s, s ∈ splitOnChar sep l → sep ∉ s
  | [], s, hs => by
    simp only [splitOnChar, List.mem_singleton] at hs
    subst hs; simp
  | c :: rest, s, hs => by
    by_cases hc : c = sep
    · simp only [splitOnChar, if_pos hc, List.mem_cons] at hs
      rcases hs with h | h
      · subst h; simp
      · exact not_mem_of_mem_splitOnChar sep rest s h
    · simp only [splitOnChar, if_neg hc] at hs
      match hrec : splitOnChar sep rest with
      | [] => exact absurd hrec (splitOnChar_ne_nil sep rest)
      | s0 :: ss =>
        rw [hrec] at hs
        rcases List.mem_cons.mp hs with h | h
        · subst h
          intro hmem
          rcases List.mem_cons.mp hmem with h | h
          · exact hc h.symm
          · exact not_mem_of_mem_splitOnChar sep rest s0 (hrec ▸ List.mem_cons_self s0 ss) h
        · exact not_mem_of_mem_splitOnChar sep rest s (hrec ▸ List.mem_cons_of_mem s0 h)

/-! ## Lemmas about the base64url codec -/

theorem b64_alphabet_facts : ∀ n : Fin 64,
    b64Val (b64Char n.val) = some n.val ∧
    b64OfUrlChar (urlOfB64Char (b64Char n.val)) = b64Char n.val ∧
    urlOfB64Char (b64Char n.val) ≠ '=' ∧
    urlOfB64Char (b64Char n.val) ≠ '.' ∧
    b64Char n.val ≠ '=' ∧ b64Char n.val ≠ '.' := by decide

theorem b64Val_b64Char {n : Nat} (h : n < 64) : b64Val (b64Char n) = some n :=
  (b64_alphabet_facts ⟨n, h⟩).1

theorem b64OfUrl_urlOf_b64Char {n : Nat} (h : n < 64) :
    b64OfUrlChar (urlOfB64Char (b64Char n)) = b64Char n :=
  (b64_alphabet_facts ⟨n, h⟩).2.1

theorem urlOf_b64Char_ne_pad {n : Nat} (h : n < 64) : urlOfB64Char (b64Char n) ≠ '=' :=
  (b64_alphabet_facts ⟨n, h⟩).2.2.1

theorem urlOf_b64Char_ne_dot {n : Nat} (h : n < 64) : urlOfB64Char (b64Char n) ≠ '.' :=
  (b64_alphabet_facts ⟨n, h⟩).2.2.2.1

theorem b64Char_ne_pad {n : Nat} (h : n < 64) : b64Char n ≠ '=' :=
  (b64_alphabet_facts ⟨n, h⟩).2.2.2.2.1

theorem filter_ne_pad_cons (c : Char) (l : List Char) (h : c ≠ '=') :
    (c :: l).filter (fun x => x != '=') = c :: l.filter (fun x => x != '=') := by
  simp [List.filter_cons, h]

theorem filter_pad_cons (l : List Char) :
    ('=' :: l).filter (fun x => x != '=') = l.filter (fun x => x != '=') := by
  simp [List.filter_cons]

theorem base64UrlEncodeBytes_nil : base64UrlEncodeBytes [] = [] := rfl

theorem base64UrlEncodeBytes_one (b1 : Nat) (h1 : b1 < 256) :
    base64UrlEncodeBytes [b1] =
      [urlOfB64Char (b64Char (b1 / 4)), urlOfB64Char (b64Char (b1 % 4 * 16))] := by
  have s1 : b1 / 4 < 64 := by omega
  have s2 : b1 % 4 * 16 < 64 := by omega
  simp only [base64UrlEncodeBytes, b64Encode, List.map_cons, List.map_nil]
  rw [show urlOfB64Char '=' = '=' from rfl,
    filter_ne_pad_cons _ _ (urlOf_b64Char_ne_pad s1),
    filter_ne_pad_cons _ _ (urlOf_b64Char_ne_pad s2),
    filter_pad_cons, filter_pad_cons, List.filter_nil]

theorem base64UrlEncodeBytes_two (b1 b2 : Nat) (h1 : b1 < 256) (h2 : b2 < 256) :
    base64UrlEncodeBytes [b1, b2] =
      [urlOfB64Char (b64Char (b1 / 4)), urlOfB64Char (b64Char (b1 % 4 * 16 + b2 / 16)),
        urlOfB64Char (b64Char (b2 % 16 * 4))] := by
  have s1 : b1 / 4 < 64 := by omega
  have s2 : b1 % 4 * 16 + b2 / 16 < 64 := by omega
  have s3 : b2 % 16 * 4 < 64 := by omega
  simp only [base64UrlEncodeBytes, b64Encode, List.map_cons, List.map_nil]
  rw [show urlOfB64Char '=' = '=' from rfl,
    filter_ne_pad_cons _ _ (urlOf_b64Char_ne_pad s1),
    filter_ne_pad_cons _ _ (urlOf_b64Char_ne_pad s2),
    filter_ne_pad_cons _ _ (urlOf_b64Char_ne_pad s3),
    filter_pad_cons, List.filter_nil]

theorem base64UrlEncodeBytes_cons3 (b1 b2 b3 : Nat) (rest : List Nat)
    (h1 : b1 < 256) (h2 : b2 < 256) (h3 : b3 < 256) :
    base64UrlEncodeBytes (b1 :: b2 :: b3 :: rest) =
      urlOfB64Char (b64Char (b1 / 4)) :: urlOfB64Char (b64Char (b1 % 4 * 16 + b2 / 16)) ::
        urlOfB64Char (b64Char (b2 % 16 * 4 + b3 / 64)) :: urlOfB64Char (b64Char (b3 % 64)) ::
        base64UrlEncodeBytes rest := by
  have s1 : b1 / 4 < 64 := by omega
  have s2 : b1 % 4 * 16 + b2 / 16 < 64 := by omega
  have s3 : b2 % 16 * 4 + b3 / 64 < 64 := by omega
  have s4 : b3 % 64 < 64 := by omega
  simp only [base64UrlEncodeBytes, b64Encode, List.map_cons]
  rw [filter_ne_pad_cons _ _ (urlOf_b64Char_ne_pad s1),
    filter_ne_pad_cons _ _ (urlOf_b64Char_ne_pad s2),
    filter_ne_pad_cons _ _ (urlOf_b64Char_ne_pad s3),
    filter_ne_pad_cons _ _ (urlOf_b64Char_ne_pad s4)]

theorem base64UrlDecodeBytes_cons4 (c1 c2 c3 c4 : Char) (t : List Char)
    (v1 v2 v3 v4 : Nat)
    (e1 : b64Val (b64OfUrlChar c1) = some v1) (e2 : b64Val (b64OfUrlChar c2) = some v2)
    (e3 : b64Val (b64OfUrlChar c3) = some v3) (e4 : b64Val (b64OfUrlChar c4) = some v4)
    (n3 : b64OfUrlChar c3 ≠ '=') (n4 : b64OfUrlChar c4 ≠ '=') :
    base64UrlDecodeBytes (c1 :: c2 :: c3 :: c4 :: t) =
      (base64UrlDecodeBytes t).map
        (fun bs => (v1 * 4 + v2 / 16) :: (v2 % 16 * 16 + v3 / 4) :: (v3 % 4 * 64 + v4) :: bs) := by
  simp only [base64UrlDecodeBytes, List.map_cons, List.length_cons, List.length_map]
  have hmod : (4 - (t.length + 1 + 1 + 1 + 1) % 4) % 4 = (4 - t.length % 4) % 4 := by omega
  rw [hmod]
  simp only [List.cons_append, b64Decode, e1, e2, if_neg n3, e3, if_neg n4, e4]
  cases hres : b64Decode (t.map b64OfUrlChar ++ List.replicate ((4 - t.length % 4) % 4) '=') <;>
    simp [hres]

/-- Round trip of the repository's base64url codec: decoding an encoded
byte sequence restores it exactly, for byte values below 256. -/
theorem base64Url_roundtrip : ∀ bs : List Nat, (∀ b ∈ bs, b < 256) →
    base64UrlDecodeBytes (base64UrlEncodeBytes bs) = some bs
  | [], _ => rfl
  | [b1], h => by
    have hb1 : b1 < 256 := h b1 (by simp)
    have s1 : b1 / 4 < 64 := by omega
    have s2 : b1 % 4 * 16 < 64 := by omega
    rw [base64UrlEncodeBytes_one b1 hb1]
    simp only [base64UrlDecodeBytes, List.map_cons, List.map_nil, List.length_cons,
      List.length_nil]
    rw [b64OfUrl_urlOf_b64Char s1, b64OfUrl_urlOf_b64Char s2]
    show b64Decode [b64Char (b1 / 4), b64Char (b1 % 4 * 16), '=', '='] = some [b1]
    simp only [b64Decode, b64Val_b64Char s1, b64Val_b64Char s2, if_pos rfl, and_self,
      reduceIte]
    have : b1 / 4 * 4 + b1 % 4 * 16 / 16 = b1 := by omega
    rw [this]
  | [b1, b2], h => by
    have hb1 : b1 < 256 := h b1 (by simp)
    have hb2 : b2 < 256 := h b2 (by simp)
    have s1 : b1 / 4 < 64 := by omega
    have s2 : b1 % 4 * 16 + b2 / 16 < 64 := by omega
    have s3 : b2 % 16 * 4 < 64 := by omega
    rw [base64UrlEncodeBytes_two b1 b2 hb1 hb2]
    simp only [base64UrlDecodeBytes, List.map_cons, List.map_nil, List.length_cons,
      List.length_nil]
    rw [b64OfUrl_urlOf_b64Char s1, b64OfUrl_urlOf_b64Char s2, b64OfUrl_urlOf_b64Char s3]
    show b64Decode [b64Char (b1 / 4), b64Char (b1 % 4 * 16 + b2 / 16), b64Char (b2 % 16 * 4), '=']
      = some [b1, b2]
    simp only [b64Decode, b64Val_b64Char s1, b64Val_b64Char s2, b64Val_b64Char s3,
      if_neg (b64Char_ne_pad s3), if_pos rfl, reduceIte]
    have e1 : b1 / 4 * 4 + (b1 % 4 * 16 + b2 / 16) / 16 = b1 := by omega
    have e2 : (b1 % 4 * 16 + b2 / 16) % 16 * 16 + b2 % 16 * 4 / 4 = b2 := by omega
    rw [e1, e2]
  | b1 :: b2 :: b3 :: rest, h => by
    have hb1 : b1 < 256 := h b1 (by simp)
    have hb2 : b2 < 256 := h b2 (by simp)
    have hb3 : b3 < 256 := h b3 (by simp)
    have s1 : b1 / 4 < 64 := by omega
    have s2 : b1 % 4 * 16 + b2 / 16 < 64 := by omega
    have s3 : b2 % 16 * 4 + b3 / 64 < 64 := by omega
    have s4 : b3 % 64 < 64 := by omega
    have ih := base64Url_roundtrip rest (fun b hb => h b (by simp [hb]))
    rw [base64UrlEncodeBytes_cons3 b1 b2 b3 rest hb1 hb2 hb3]
    rw [base64UrlDecodeBytes_cons4 _ _ _ _ _ _ _ _ _
      (by rw [b64OfUrl_urlOf_b64Char s1, b64Val_b64Char s1])
      (by rw [b64OfUrl_urlOf_b64Char s2, b64Val_b64Char s2])
      (by rw [b64OfUrl_urlOf_b64Char s3, b64Val_b64Char s3])
      (by rw [b64OfUrl_urlOf_b64Char s4, b64Val_b64Char s4])
      (by rw [b64OfUrl_urlOf_b64Char s3]; exact b64Char_ne_pad s3)
      (by rw [b64OfUrl_urlOf_b64Char s4]; exact b64Char_ne_pad s4)]
    rw [ih]
    simp only [Option.map_some', Option.some.injEq, List.cons.injEq]
    refine ⟨by omega, by omega, by omega, trivial⟩

theorem base64UrlEncodeBytes_no_dot : ∀ bs : List Nat, (∀ b ∈ bs, b < 256) →
    '.' ∉ base64UrlEncodeBytes bs
  | [], _ => by simp [base64UrlEncodeBytes_nil]
  | [b1], h => by
    have hb1 : b1 < 256 := h b1 (by simp)
    have s1 : b1 / 4 < 64 := by omega
    have s2 : b1 % 4 * 16 < 64 := by omega
    rw [base64UrlEncodeBytes_one b1 hb1]
    intro hmem
    rcases List.mem_cons.mp hmem with hc | hmem
    · exact urlOf_b64Char_ne_dot s1 hc.symm
    · rcases List.mem_cons.mp hmem with hc | hmem
      · exact urlOf_b64Char_ne_dot s2 hc.symm
      · simp at hmem
  | [b1, b2], h => by
    have hb1 : b1 < 256 := h b1 (by simp)
    have hb2 : b2 < 256 := h b2 (by simp)
    have s1 : b1 / 4 < 64 := by omega
    have s2 : b1 % 4 * 16 + b2 / 16 < 64 := by omega
    have s3 : b2 % 16 * 4 < 64 := by omega
    rw [base64UrlEncodeBytes_two b1 b2 hb1 hb2]
    intro hmem
    rcases List.mem_cons.mp hmem with hc | hmem
    · exact urlOf_b64Char_ne_dot s1 hc.symm
    · rcases List.mem_cons.mp hmem with hc | hmem
      · exact urlOf_b64Char_ne_dot s2 hc.symm
      · rcases List.mem_cons.mp hmem with hc | hmem
        · exact urlOf_b64Char_ne_dot s3 hc.symm
        · simp at hmem
  | b1 :: b2 :: b3 :: rest, h => by
    have hb1 : b1 < 256 := h b1 (by simp)
    have hb2 : b2 < 256 := h b2 (by simp)
    have hb3 : b3 < 256 := h b3 (by simp)
    have s1 : b1 / 4 < 64 := by omega
    have s2 : b1 % 4 * 16 + b2 / 16 < 64 := by omega
    have s3 : b2 % 16 * 4 + b3 / 64 < 64 := by omega
    have s4 : b3 % 64 < 64 := by omega
    have ih := base64UrlEncodeBytes_no_dot rest (fun b hb => h b (by simp [hb]))
    rw [base64UrlEncodeBytes_cons3 b1 b2 b3 rest hb1 hb2 hb3]
    intro hmem
    rcases List.mem_cons.mp hmem with hc | hmem
    · exact urlOf_b64Char_ne_dot s1 hc.symm
    · rcases List.mem_cons.mp hmem with hc | hmem
      · exact urlOf_b64Char_ne_dot s2 hc.symm
      · rcases List.mem_cons.mp hmem with hc | hmem
        · exact urlOf_b64Char_ne_dot s3 hc.symm
        · rcases List.mem_cons.mp hmem with hc | hmem
          · exact urlOf_b64Char_ne_dot s4 hc.symm
          · exact ih hmem

theorem base64UrlEncodeBytes_ne_nil : ∀ bs : List Nat, bs ≠ [] → (∀ b ∈ bs, b < 256) →
    base64UrlEncodeBytes bs ≠ []
  | [], hne, _ => absurd rfl hne
  | [b1], _, h => by
    rw [base64UrlEncodeBytes_one b1 (h b1 (by simp))]
    simp
  | [b1, b2], _, h => by
    rw [base64UrlEncodeBytes_two b1 b2 (h b1 (by simp)) (h b2 (by simp))]
    simp
  | b1 :: b2 :: b3 :: rest, _, h => by
    rw [base64UrlEncodeBytes_cons3 b1 b2 b3 rest (h b1 (by simp)) (h b2 (by simp))
      (h b3 (by simp))]
    simp

/-! ## Lemmas about token structure and `verifyJWT` -/

theorem string_data_append (s t : String) : (s ++ t).data = s.data ++ t.data := rfl

theorem string_data_mk (l : List Char) : (String.mk l).data = l := rfl

theorem token_data_eq (eh ep sg : List Char) :
    (String.mk eh ++ "." ++ String.mk ep ++ "." ++ String.mk sg).data =
      eh ++ '.' :: (ep ++ '.' :: sg) := by
  simp [string_data_append, string_data_mk, List.append_assoc]

theorem splitOnChar_token (eh ep sg : List Char)
    (hh : '.' ∉ eh) (hp : '.' ∉ ep) (hs : '.' ∉ sg) :
    splitOnChar '.' ((String.mk eh ++ "." ++ String.mk ep ++ "." ++ String.mk sg).data) =
      [eh, ep, sg] := by
  rw [token_data_eq, splitOnChar_append '.' eh _ hh, splitOnChar_append '.' ep _ hp,
    splitOnChar_of_not_mem '.' sg hs]

theorem verifyJWT_eq_verifySegments (E : JwtEnv) (token secret : String) (now : Nat)
    (h p s : List Char) (ts : List (List Char))
    (htok : splitOnChar '.' token.data = h :: p :: s :: ts) :
    verifyJWT E token secret now = verifySegments E h p s secret now := by
  simp [verifyJWT, htok]

theorem verifyJWT_short (E : JwtEnv) (token secret : String) (now : Nat)
    (htok : (splitOnChar '.' token.data).length < 3) :
    verifyJWT E token secret now = none := by
  match hparts : splitOnChar '.' token.data with
  | [] => simp [verifyJWT, hparts]
  | [a] => simp [verifyJWT, hparts]
  | [a, b] => simp [verifyJWT, hparts]
  | a :: b :: c :: ts => rw [hparts] at htok; simp at htok; omega

/-! ## Lemmas about the hex codec and the constant-time comparison -/

theorem hex_alphabet_facts : ∀ n : Fin 16,
    hexDigitVal (hexDigitChar n.val) = some n.val ∧
    isLineTerminator (hexDigitChar n.val) = false := by decide

theorem hexDigitVal_hexDigitChar {n : Nat} (h : n < 16) :
    hexDigitVal (hexDigitChar n) = some n :=
  (hex_alphabet_facts ⟨n, h⟩).1

theorem hexDigitChar_not_lineTerm {n : Nat} (h : n < 16) :
    isLineTerminator (hexDigitChar n) = false :=
  (hex_alphabet_facts ⟨n, h⟩).2

theorem hexEncodeBytes_cons (b : Nat) (rest : List Nat) :
    hexEncodeBytes (b :: rest) =
      hexDigitChar (b / 16) :: hexDigitChar (b % 16) :: hexEncodeBytes rest := by
  simp [hexEncodeBytes, byteToHexPair]

theorem chunks12_hexEncodeBytes : ∀ bs : List Nat, (∀ b ∈ bs, b < 256) →
    chunks12 (hexEncodeBytes bs) = bs.map byteToHexPair
  | [], _ => rfl
  | b :: rest, h => by
    have hb : b < 256 := h b (by simp)
    have h1 : b / 16 < 16 := by omega
    have h2 : b % 16 < 16 := by omega
    have ih := chunks12_hexEncodeBytes rest (fun x hx => h x (by simp [hx]))
    rw [hexEncodeBytes_cons]
    simp [chunks12, hexDigitChar_not_lineTerm h1, hexDigitChar_not_lineTerm h2, ih,
      byteToHexPair]

theorem parseChunkByte_pair {b : Nat} (h : b < 256) :
    parseChunkByte (byteToHexPair b) = b := by
  have h1 : b / 16 < 16 := by omega
  have h2 : b % 16 < 16 := by omega
  simp only [byteToHexPair, parseChunkByte, hexDigitVal_hexDigitChar h1,
    hexDigitVal_hexDigitChar h2]
  omega

theorem hexDecodeBytesLoose_encode (bs : List Nat) (h : ∀ b ∈ bs, b < 256) :
    hexDecodeBytesLoose (hexEncodeBytes bs) = bs := by
  unfold hexDecodeBytesLoose
  rw [chunks12_hexEncodeBytes bs h, List.map_map]
  have : ∀ b ∈ bs, (parseChunkByte ∘ byteToHexPair) b = id b := by
    intro b hb
    simp [parseChunkByte_pair (h b hb)]
  rw [List.map_congr_left this, List.map_id]

theorem nat_or_eq_zero (m n : Nat) : m ||| n = 0 ↔ m = 0 ∧ n = 0 := by
  constructor
  · intro h
    have hbits : ∀ i, (m.testBit i || n.testBit i) = false := fun i => by
      have hb := congrArg (fun x => Nat.testBit x i) h
      simpa [Nat.testBit_lor, Nat.zero_testBit] using hb
    constructor
    · exact Nat.eq_of_testBit_eq fun i => by
        have := hbits i
        simp only [Bool.or_eq_false_iff] at this
        simp [this.1, Nat.zero_testBit]
    · exact Nat.eq_of_testBit_eq fun i => by
        have := hbits i
        simp only [Bool.or_eq_false_iff] at this
        simp [this.2, Nat.zero_testBit]
  · rintro ⟨rfl, rfl⟩
    simp

theorem ctEq_foldl_eq_zero : ∀ (l : List (Nat × Nat)) (acc : Nat),
    (l.foldl (fun a p => a ||| (p.1 ^^^ p.2)) acc = 0) ↔ (acc = 0 ∧ ∀ p ∈ l, p.1 = p.2)
  | [], acc => by simp
  | hd :: tl, acc => by
    rw [List.foldl_cons, ctEq_foldl_eq_zero tl]
    rw [nat_or_eq_zero, Nat.xor_eq_zero]
    constructor
    · rintro ⟨⟨h0, hhd⟩, htl⟩
      exact ⟨h0, fun p hp => by rcases List.mem_cons.mp hp with rfl | hp; exact hhd; exact htl p hp⟩
    · rintro ⟨h0, hall⟩
      exact ⟨⟨h0, hall hd (by simp)⟩, fun p hp => hall p (by simp [hp])⟩

theorem zip_forall_eq : ∀ a b : List Nat, a.length = b.length →
    ((∀ p ∈ a.zip b, p.1 = p.2) ↔ a = b)
  | [], [], _ => by simp
  | [], y :: b, h => by simp at h
  | x :: a, [], h => by simp at h
  | x :: a, y :: b, h => by
    simp only [List.zip_cons_cons, List.mem_cons, List.cons.injEq]
    rw [← zip_forall_eq a b (by simpa using h)]
    constructor
    · intro hall
      exact ⟨hall (x, y) (Or.inl rfl), fun p hp => hall p (Or.inr hp)⟩
    · rintro ⟨hxy, hall⟩ p hp
      rcases hp with rfl | hp
      · exact hxy
      · exact hall p hp

theorem ctEqBytes_eq_iff (a b : List Nat) (h : a.length = b.length) :
    ctEqBytes a b = true ↔ a = b := by
  unfold ctEqBytes
  rw [beq_iff_eq, ctEq_foldl_eq_zero, zip_forall_eq a b h]
  simp

/-! ## Claim theorems: PasswordHasher -/

/-- C7: for every password and every 16-byte salt (of byte values), and
every PBKDF2 derivation producing 32 bytes, verifying a password against
its own fresh hash succeeds: `verify(p, hash(p))` is `true` — the hex
round trip recovers salt and stored key, the re-derivation matches, and
the constant-time comparison accepts. -/
theorem verifyPassword_hashPassword (pbkdf2 : String → List Nat → List Nat)
    (password : String) (salt : List Nat)
    (hsaltLen : salt.length = 16) (hsaltB : ∀ b ∈ salt, b < 256)
    (hderLen : ∀ pw s, (pbkdf2 pw s).length = 32)
    (hderB : ∀ pw s, ∀ b ∈ pbkdf2 pw s, b < 256) :
    verifyPassword pbkdf2 password (hashPassword pbkdf2 password salt) = true := by
  have hbs : ∀ b ∈ salt ++ pbkdf2 password salt, b < 256 := by
    intro b hb
    rcases List.mem_append.mp hb with h | h
    · exact hsaltB b h
    · exact hderB password salt b h
  have hmap : ((salt ++ pbkdf2 password salt).map byteToHexPair).map parseChunkByte =
      salt ++ pbkdf2 password salt := by
    rw [List.map_map]
    have hcongr : ∀ b ∈ salt ++ pbkdf2 password salt,
        (parseChunkByte ∘ byteToHexPair) b = id b := by
      intro b hb
      simp [parseChunkByte_pair (hbs b hb)]
    rw [List.map_congr_left hcongr, List.map_id]
  have htake : (salt ++ pbkdf2 password salt).take 16 = salt := by
    rw [← hsaltLen]
    exact List.take_left salt _
  have hdrop : (salt ++ pbkdf2 password salt).drop 16 = pbkdf2 password salt := by
    rw [← hsaltLen]
    exact List.drop_left salt _
  have hne : ¬((salt ++ pbkdf2 password salt).map byteToHexPair).isEmpty = true := by
    simp only [List.isEmpty_iff, List.map_eq_nil_iff, List.append_eq_nil]
    rintro ⟨h1, _⟩
    rw [h1] at hsaltLen
    simp at hsaltLen
  simp only [verifyPassword, hashPassword, string_data_mk, chunks12_hexEncodeBytes _ hbs]
  rw [if_neg hne, hmap, htake, hdrop]
  rw [if_neg (by simp)]
  exact (ctEqBytes_eq_iff _ _ rfl).mpr rfl

/-- Witness for C7 at a concrete salt and derivation. -/
theorem verifyPassword_hashPassword_witness :
    verifyPassword witnessPbkdf2 "pw" (hashPassword witnessPbkdf2 "pw" witnessSalt) = true :=
  verifyPassword_hashPassword witnessPbkdf2 "pw" witnessSalt
    (by simp [witnessSalt])
    (by intro b hb; simp [witnessSalt, List.mem_replicate] at hb; omega)
    (by intro pw s; simp [witnessPbkdf2])
    (by intro pw s b hb; simp [witnessPbkdf2, List.mem_replicate] at hb; omega)

/-- C9 (amended): `verifyPassword` is a total Boolean function (every
exception of the source, such as the null `match` result on an empty
hash, is caught and mapped to `false`), and it returns `false` on every
stored hash whose lenient hex decoding (`parseInt` semantics: a chunk's
longest hex prefix is used and chunks with no hex digit become byte 0)
does not produce exactly 48 bytes whose 32-byte tail equals the key
re-derived from the 16-byte head — in particular whenever the decoded
byte count differs from 48.  Malformed *content* is not rejected
structurally: a hash whose lenient decoding happens to equal
salt‖derived-key is accepted even when it contains non-hex characters or
has odd length (see the counterexample). -/
theorem verifyPassword_malformed (pbkdf2 : String → List Nat → List Nat)
    (password hash : String)
    (hderLen : ∀ pw s, (pbkdf2 pw s).length = 32)
    (hbad : (hexDecodeBytesLoose hash.data).length ≠ 48 ∨
      (hexDecodeBytesLoose hash.data).drop 16 ≠
        pbkdf2 password ((hexDecodeBytesLoose hash.data).take 16)) :
    verifyPassword pbkdf2 password hash = false := by
  simp only [verifyPassword]
  by_cases hch : (chunks12 hash.data).isEmpty = true
  · rw [if_pos hch]
  · rw [if_neg hch]
    have hxb : (chunks12 hash.data).map parseChunkByte = hexDecodeBytesLoose hash.data := rfl
    rw [hxb]
    by_cases hlen48 : (hexDecodeBytesLoose hash.data).length = 48
    · have hneq : (hexDecodeBytesLoose hash.data).drop 16 ≠
          pbkdf2 password ((hexDecodeBytesLoose hash.data).take 16) := by
        rcases hbad with h | h
        · exact absurd hlen48 h
        · exact h
      by_cases hlc : (pbkdf2 password ((hexDecodeBytesLoose hash.data).take 16)).length ≠
          ((hexDecodeBytesLoose hash.data).drop 16).length
      · rw [if_pos hlc]
      · rw [if_neg hlc]
        push_neg at hlc
        rcases hb : ctEqBytes (pbkdf2 password ((hexDecodeBytesLoose hash.data).take 16))
            ((hexDecodeBytesLoose hash.data).drop 16) with _ | _
        · rfl
        · exact absurd ((ctEqBytes_eq_iff _ _ hlc).mp hb).symm hneq
    · have hl : (pbkdf2 password ((hexDecodeBytesLoose hash.data).take 16)).length ≠
          ((hexDecodeBytesLoose hash.data).drop 16).length := by
        rw [hderLen, List.length_drop]
        omega
      rw [if_pos hl]

/-- Witness for C9: a two-character hash (one byte) is rejected. -/
theorem verifyPassword_malformed_witness :
    verifyPassword witnessPbkdf2 "pw" "00" = false :=
  verifyPassword_malformed witnessPbkdf2 "pw" "00"
    (by intro pw s; simp [witnessPbkdf2])
    (Or.inl (by decide))

/-- C9 counterexample: the claim that every malformed stored hash yields
`false` is refuted on the code.  A 96-character hash containing the
non-hex character `z` (its chunk `7z` parses to 7 via `parseInt`'s
longest-hex-prefix rule), and a 95-character odd-length hash, both decode
leniently to exactly salt‖derived-key for the given derivation, and
`verifyPassword` returns `true` on them. -/
theorem verifyPassword_malformed_counterexample :
    witnessMalformedNonHexHash.length = 96 ∧
    'z' ∈ witnessMalformedNonHexHash.data ∧
    verifyPassword witnessPbkdf2 "pw" witnessMalformedNonHexHash = true ∧
    witnessMalformedOddHash.length = 95 ∧
    verifyPassword witnessPbkdf2 "pw" witnessMalformedOddHash = true :=
  ⟨by decide, by decide, by decide, by decide, by decide⟩

/-! ## Claim theorems: TokenCodec -/

/-- C6: for every payload `(userId, email)`, secret and signing time, and
every platform environment (an HMAC producing 32 bytes, a UTF-8 encoder
producing bytes, and a JSON codec that round-trips the signed payload),
verifying a token immediately after signing it succeeds and returns the
payload whose `userId` equals the input and whose `exp` equals `iat`
plus `7 × 86400` seconds. -/
theorem createJWT_verifyJWT_roundtrip (E : JwtEnv) (userId email secret : String) (now : Nat)
    (hHmacLen : ∀ m s, (E.hmacSha256 m s).length = 32)
    (hHmacB : ∀ m s, ∀ b ∈ E.hmacSha256 m s, b < 256)
    (hUtf8B : ∀ str, ∀ b ∈ E.utf8Encode str, b < 256)
    (hHeaderNe : E.utf8Encode jwtHeaderJson ≠ [])
    (hPayloadNe : E.utf8Encode (E.stringifyPayload (jwtPayloadAt userId email now)) ≠ [])
    (hJson : E.parsePayload (latin1String
        (E.utf8Encode (E.stringifyPayload (jwtPayloadAt userId email now)))) =
      some (jwtPayloadAt userId email now)) :
    verifyJWT E (createJWT E userId email secret now) secret now =
      some (jwtPayloadAt userId email now) ∧
    (jwtPayloadAt userId email now).userId = userId ∧
    (jwtPayloadAt userId email now).exp = (jwtPayloadAt userId email now).iat + 7 * 86400 := by
  have hehne : base64UrlEncodeBytes (E.utf8Encode jwtHeaderJson) ≠ [] :=
    base64UrlEncodeBytes_ne_nil _ hHeaderNe (hUtf8B _)
  have hepne : base64UrlEncodeBytes
      (E.utf8Encode (E.stringifyPayload (jwtPayloadAt userId email now))) ≠ [] :=
    base64UrlEncodeBytes_ne_nil _ hPayloadNe (hUtf8B _)
  have htok : createJWT E userId email secret now =
      String.mk (base64UrlEncodeBytes (E.utf8Encode jwtHeaderJson)) ++ "." ++
      String.mk (base64UrlEncodeBytes
        (E.utf8Encode (E.stringifyPayload (jwtPayloadAt userId email now)))) ++ "." ++
      String.mk (base64UrlEncodeBytes (E.hmacSha256
        (String.mk (base64UrlEncodeBytes (E.utf8Encode jwtHeaderJson)) ++ "." ++
          String.mk (base64UrlEncodeBytes
            (E.utf8Encode (E.stringifyPayload (jwtPayloadAt userId email now))))) secret)) := rfl
  have hsgne : base64UrlEncodeBytes (E.hmacSha256
      (String.mk (base64UrlEncodeBytes (E.utf8Encode jwtHeaderJson)) ++ "." ++
        String.mk (base64UrlEncodeBytes
          (E.utf8Encode (E.stringifyPayload (jwtPayloadAt userId email now))))) secret) ≠ [] := by
    apply base64UrlEncodeBytes_ne_nil _ _ (hHmacB _ _)
    intro hc
    have hl := hHmacLen (String.mk (base64UrlEncodeBytes (E.utf8Encode jwtHeaderJson)) ++ "." ++
      String.mk (base64UrlEncodeBytes
        (E.utf8Encode (E.stringifyPayload (jwtPayloadAt userId email now))))) secret
    rw [hc] at hl
    simp at hl
  have hsplit : splitOnChar '.' (createJWT E userId email secret now).data =
      [base64UrlEncodeBytes (E.utf8Encode jwtHeaderJson),
        base64UrlEncodeBytes (E.utf8Encode (E.stringifyPayload (jwtPayloadAt userId email now))),
        base64UrlEncodeBytes (E.hmacSha256
          (String.mk (base64UrlEncodeBytes (E.utf8Encode jwtHeaderJson)) ++ "." ++
            String.mk (base64UrlEncodeBytes
              (E.utf8Encode (E.stringifyPayload (jwtPayloadAt userId email now))))) secret)] := by
    rw [htok]
    exact splitOnChar_token _ _ _
      (base64UrlEncodeBytes_no_dot _ (hUtf8B _))
      (base64UrlEncodeBytes_no_dot _ (hUtf8B _))
      (base64UrlEncodeBytes_no_dot _ (hHmacB _ _))
  have hdecSig := base64Url_roundtrip (E.hmacSha256
    (String.mk (base64UrlEncodeBytes (E.utf8Encode jwtHeaderJson)) ++ "." ++
      String.mk (base64UrlEncodeBytes
        (E.utf8Encode (E.stringifyPayload (jwtPayloadAt userId email now))))) secret)
    (hHmacB _ _)
  have hdecPay := base64Url_roundtrip
    (E.utf8Encode (E.stringifyPayload (jwtPayloadAt userId email now))) (hUtf8B _)
  have hexp : ¬((jwtPayloadAt userId email now).exp < now) := by
    simp [jwtPayloadAt]
  refine ⟨?_, rfl, by simp [jwtPayloadAt]⟩
  rw [verifyJWT_eq_verifySegments E _ secret now _ _ _ [] hsplit]
  simp only [verifySegments, List.isEmpty_iff, hehne, hepne, hsgne, hdecSig, hdecPay, hJson,
    hexp, or_self, if_false, if_true, reduceIte]

/-- Witness for C6 at the concrete environment `jwtWitnessEnv`. -/
theorem createJWT_verifyJWT_roundtrip_witness :
    verifyJWT jwtWitnessEnv (createJWT jwtWitnessEnv "u" "e" "sec" 1000) "sec" 1000 =
      some (jwtPayloadAt "u" "e" 1000) ∧
    (jwtPayloadAt "u" "e" 1000).userId = "u" ∧
    (jwtPayloadAt "u" "e" 1000).exp = (jwtPayloadAt "u" "e" 1000).iat + 7 * 86400 :=
  createJWT_verifyJWT_roundtrip jwtWitnessEnv "u" "e" "sec" 1000
    (by intro m s; simp [jwtWitnessEnv])
    (by intro m s b hb; simp [jwtWitnessEnv, List.mem_replicate] at hb; omega)
    (by
      intro str b hb
      simp only [jwtWitnessEnv, List.mem_map] at hb
      obtain ⟨c, _, rfl⟩ := hb
      exact Nat.mod_lt _ (by norm_num))
    (by decide)
    (by decide)
    rfl

/-- C8: a token whose parsed payload has `exp` strictly below the current
time verifies to `null`, even when it has three well-formed segments and
the signature matches the recomputed HMAC. -/
theorem verifyJWT_expired (E : JwtEnv) (token secret : String) (now : Nat)
    (h p s : List Char) (payload : JWTPayload)
    (htok : splitOnChar '.' token.data = [h, p, s])
    (hsig : base64UrlDecodeBytes s =
      some (E.hmacSha256 (String.mk h ++ "." ++ String.mk p) secret))
    (hpay : ∃ pb, base64UrlDecodeBytes p = some pb ∧
      E.parsePayload (latin1String pb) = some payload)
    (hexp : payload.exp < now) :
    verifyJWT E token secret now = none := by
  obtain ⟨pb, hpb, hparse⟩ := hpay
  rw [verifyJWT_eq_verifySegments E token secret now h p s [] htok]
  by_cases hemp : (h.isEmpty = true ∨ p.isEmpty = true ∨ s.isEmpty = true)
  · simp only [verifySegments]
    rw [if_pos hemp]
  · simp only [verifySegments]
    rw [if_neg hemp]
    simp [hsig, hpb, hparse, hexp]

/-- Witness for C8: the witness token, verified long after its expiry. -/
theorem verifyJWT_expired_witness :
    verifyJWT jwtWitnessEnv witnessToken "sec" 1000000000 = none :=
  verifyJWT_expired jwtWitnessEnv witnessToken "sec" 1000000000
    witnessHeaderSeg witnessPayloadSeg witnessSigSeg (jwtPayloadAt "u" "e" 1000)
    (by decide)
    (by decide)
    ⟨[117], by decide, rfl⟩
    (by decide)

/-- C2 (amended): `verifyJWT` rejects (returns `null` for) every token with
fewer than three dot-separated segments, and rejects when any of the first
three segments is empty; but a token with more than three segments is not
rejected structurally — the destructuring drops the extra segments and
the result is exactly that of processing the first three. -/
theorem verifyJWT_segment_structure (E : JwtEnv) (token secret : String) (now : Nat) :
    ((splitOnChar '.' token.data).length < 3 → verifyJWT E token secret now = none) ∧
    (∀ h p s ts, splitOnChar '.' token.data = h :: p :: s :: ts →
      verifyJWT E token secret now = verifySegments E h p s secret now ∧
      ((h.isEmpty = true ∨ p.isEmpty = true ∨ s.isEmpty = true) →
        verifyJWT E token secret now = none)) := by
  refine ⟨fun hlt => verifyJWT_short E token secret now hlt, ?_⟩
  intro h p s ts htok
  refine ⟨verifyJWT_eq_verifySegments E token secret now h p s ts htok, fun hemp => ?_⟩
  rw [verifyJWT_eq_verifySegments E token secret now h p s ts htok]
  simp only [verifySegments]
  rw [if_pos hemp]

/-- Witness for the amended C2: a two-segment token is rejected, and a
four-segment token is processed exactly as its first three segments. -/
theorem verifyJWT_segment_structure_witness :
    verifyJWT jwtWitnessEnv "a.b" "sec" 0 = none ∧
    verifyJWT jwtWitnessEnv "h.p.s.x" "sec" 0 =
      verifySegments jwtWitnessEnv "h".data "p".data "s".data "sec" 0 :=
  ⟨(verifyJWT_segment_structure jwtWitnessEnv "a.b" "sec" 0).1 (by decide),
    ((verifyJWT_segment_structure jwtWitnessEnv "h.p.s.x" "sec" 0).2
      "h".data "p".data "s".data ["x".data] (by decide)).1⟩

/-- C2 counterexample: a token with four dot-separated segments whose first
three segments form a validly signed, unexpired token is accepted — the
claim that such a token is rejected with `null` is false on the code. -/
theorem verifyJWT_four_segments_counterexample :
    (splitOnChar '.' (witnessToken ++ ".x").data).length = 4 ∧
    verifyJWT jwtWitnessEnv (witnessToken ++ ".x") "sec" 1000 =
      some (jwtPayloadAt "u" "e" 1000) :=
  ⟨by decide, by decide⟩

/-! ## Claim theorems: the `/api/auth/me` handler -/

/-- C1 (amended): for every whoami request whose cookie carries a token
with a valid signature that is unexpired and bound to a live session for
the same `userId`, if every credential row with that id has been
deactivated, the handler responds `USER_NOT_FOUND` with status 404 — the
`is_active = 1` filter of `getUserById` makes a deactivated account
invisible, so the handler's `USER_DEACTIVATED`/403 branch is not reached
through this lookup. -/
theorem whoami_deactivated_user_not_found (E : JwtEnv) (users : List AuthUser)
    (kv : String → Option String) (secret header token : String) (now : Nat)
    (payload : JWTPayload)
    (hhd : header ≠ "")
    (hck : cookieLookup header "auth-token" = some token)
    (htk : token ≠ "")
    (hjwt : verifyJWT E token secret now = some payload)
    (hsess : getSessionUser kv token = some payload.userId)
    (huid : payload.userId ≠ "")
    (hrow : ∃ u ∈ users, u.id = payload.userId)
    (hdeact : ∀ u ∈ users, u.id = payload.userId → u.is_active = false) :
    whoamiHandler E users kv secret (some header) now = .err "USER_NOT_FOUND" 404 := by
  have hfind : users.find? (fun u => u.id == payload.userId && u.is_active) = none := by
    rw [List.find?_eq_none]
    intro u hu
    by_cases hid : u.id = payload.userId
    · simp [hid, hdeact u hu hid]
    · simp [hid]
  have hget : getUserById users payload.userId = none := by
    simp [getUserById, hfind]
  simp [whoamiHandler, hck, hjwt, hsess, hget, hhd, htk, huid]

/-- Witness for the amended C1 at a concrete state with one deactivated
row. -/
theorem whoami_deactivated_user_not_found_witness :
    whoamiHandler jwtWitnessEnv [witnessDeactivatedUser] witnessKv "sec"
      (some witnessCookie) 1000 = .err "USER_NOT_FOUND" 404 :=
  whoami_deactivated_user_not_found jwtWitnessEnv [witnessDeactivatedUser] witnessKv
    "sec" witnessCookie witnessToken 1000 (jwtPayloadAt "u" "e" 1000)
    (by decide) (by decide) (by decide) (by decide) (by decide) (by decide)
    ⟨witnessDeactivatedUser, by decide, by decide⟩
    (by intro u hu hid; simp at hu; rw [hu]; rfl)

/-- C1 counterexample: at a concrete state where the token is validly
signed and unexpired, the session is live and bound to the same user, and
the only credential row for that user has `is_active = false`, whoami
responds `USER_NOT_FOUND`/404, not `USER_DEACTIVATED`/403 as the claim
states. -/
theorem whoami_deactivated_counterexample :
    verifyJWT jwtWitnessEnv witnessToken "sec" 1000 = some (jwtPayloadAt "u" "e" 1000) ∧
    getSessionUser witnessKv witnessToken = some "u" ∧
    witnessDeactivatedUser.id = "u" ∧
    witnessDeactivatedUser.is_active = false ∧
    whoamiHandler jwtWitnessEnv [witnessDeactivatedUser] witnessKv "sec"
      (some witnessCookie) 1000 = .err "USER_NOT_FOUND" 404 ∧
    whoamiHandler jwtWitnessEnv [witnessDeactivatedUser] witnessKv "sec"
      (some witnessCookie) 1000 ≠ .err "USER_DEACTIVATED" 403 :=
  ⟨by decide, by decide, by decide, by decide, by decide, by decide⟩

/-- C4: for every whoami request whose token has a valid signature and is
unexpired: deleting the session empties its entry; if the session entry is
absent or bound to a different `userId`, the handler rejects with
`SESSION_NOT_FOUND` (status 401), not `INVALID_TOKEN`; and the handler
succeeds only if the session entry holds exactly the token payload's
`userId`. -/
theorem whoami_session_check (E : JwtEnv) (users : List AuthUser)
    (kv : String → Option String) (secret header token : String) (now : Nat)
    (payload : JWTPayload)
    (hhd : header ≠ "")
    (hck : cookieLookup header "auth-token" = some token)
    (htk : token ≠ "")
    (hjwt : verifyJWT E token secret now = some payload) :
    getSessionUser (deleteSession kv token) token = none ∧
    ((getSessionUser kv token = none ∨
        (∃ uid, getSessionUser kv token = some uid ∧ uid ≠ payload.userId)) →
      whoamiHandler E users kv secret (some header) now = .err "SESSION_NOT_FOUND" 401) ∧
    (∀ user, whoamiHandler E users kv secret (some header) now = .ok user →
      getSessionUser kv token = some payload.userId) := by
  refine ⟨by simp [getSessionUser, deleteSession], ?_, ?_⟩
  · rintro (hnone | ⟨uid, hsome, hne⟩)
    · simp [whoamiHandler, hck, hjwt, hnone, hhd, htk]
    · simp [whoamiHandler, hck, hjwt, hsome, hhd, htk, hne]
  · intro user hok
    rcases hs : getSessionUser kv token with _ | uid
    · simp [whoamiHandler, hck, hjwt, hs, hhd, htk] at hok
    · by_cases hcond : uid = "" ∨ ¬uid = payload.userId
      · simp only [whoamiHandler, hck, hjwt, hs] at hok
        rw [if_neg hhd, if_neg htk, if_pos hcond] at hok
        simp at hok
      · push_neg at hcond
        rw [hcond.2]

/-- Witness for C4: deleting the witness session and replaying the cookie
yields `SESSION_NOT_FOUND`. -/
theorem whoami_session_check_witness :
    whoamiHandler jwtWitnessEnv [] witnessKvDeleted "sec" (some witnessCookie) 1000 =
      .err "SESSION_NOT_FOUND" 401 :=
  (whoami_session_check jwtWitnessEnv [] witnessKvDeleted "sec" witnessCookie
    witnessToken 1000 (jwtPayloadAt "u" "e" 1000)
    (by decide) (by decide) (by decide) (by decide)).2.1
    (Or.inl (by decide))

/-! ## Claim theorems: RateLimiter -/

theorem checkRate_init (st : String → Option RateRecord) (key : String)
    (maxAttempts windowMs now : Nat)
    (h : st key = none ∨ ∃ r, st key = some r ∧ now > r.resetTime) :
    checkRate st key maxAttempts windowMs now =
      (true, fun k => if k = key then some ⟨1, now + windowMs⟩ else st k) := by
  rcases h with hnone | ⟨r, hr, hgt⟩
  · simp [checkRate, hnone]
  · simp [checkRate, hr, hgt]

theorem checkRate_incr (st : String → Option RateRecord) (key : String)
    (maxAttempts windowMs now : Nat) (r : RateRecord)
    (hr : st key = some r) (hle : now ≤ r.resetTime) (hlt : r.count < maxAttempts) :
    checkRate st key maxAttempts windowMs now =
      (true, fun k => if k = key then some ⟨r.count + 1, r.resetTime⟩ else st k) := by
  have hng : ¬(now > r.resetTime) := by omega
  have hnc : ¬(r.count ≥ maxAttempts) := by omega
  simp [checkRate, hr, hng, hnc]

theorem checkRate_reject (st : String → Option RateRecord) (key : String)
    (maxAttempts windowMs now : Nat) (r : RateRecord)
    (hr : st key = some r) (hle : now ≤ r.resetTime) (hge : maxAttempts ≤ r.count) :
    checkRate st key maxAttempts windowMs now = (false, st) := by
  have hng : ¬(now > r.resetTime) := by omega
  simp [checkRate, hr, hng, hge]

/-- C5: `checkRate` initialises the window with `count = 1` and allows the
call on an unknown key or once `now` is past `resetTime`; inside the window
it allows and increments while `count` is below `maxAttempts` and rejects
without mutating once `count` has reached it; consequently
`checkRate(key, 3, w)` allows exactly three calls inside a window, rejects
the fourth leaving the state untouched, and allows a call again only once
the window has elapsed. -/
theorem checkRate_fixed_window :
    (∀ (st : String → Option RateRecord) (key : String) (maxAttempts windowMs now : Nat),
      ((st key = none ∨ ∃ r, st key = some r ∧ now > r.resetTime) →
        checkRate st key maxAttempts windowMs now =
          (true, fun k => if k = key then some ⟨1, now + windowMs⟩ else st k)) ∧
      (∀ r, st key = some r → now ≤ r.resetTime → r.count < maxAttempts →
        checkRate st key maxAttempts windowMs now =
          (true, fun k => if k = key then some ⟨r.count + 1, r.resetTime⟩ else st k)) ∧
      (∀ r, st key = some r → now ≤ r.resetTime → maxAttempts ≤ r.count →
        checkRate st key maxAttempts windowMs now = (false, st))) ∧
    (∀ (key : String) (w t1 t2 t3 t4 t5 : Nat),
      t2 ≤ t1 + w → t3 ≤ t1 + w → t4 ≤ t1 + w → t1 + w < t5 →
      (checkRate (fun _ => none) key 3 w t1).1 = true ∧
      (checkRate (checkRate (fun _ => none) key 3 w t1).2 key 3 w t2).1 = true ∧
      (checkRate (checkRate (checkRate (fun _ => none) key 3 w t1).2 key 3 w t2).2
        key 3 w t3).1 = true ∧
      (checkRate (checkRate (checkRate (checkRate (fun _ => none) key 3 w t1).2
        key 3 w t2).2 key 3 w t3).2 key 3 w t4).1 = false ∧
      (checkRate (checkRate (checkRate (checkRate (fun _ => none) key 3 w t1).2
        key 3 w t2).2 key 3 w t3).2 key 3 w t4).2 =
        (checkRate (checkRate (checkRate (fun _ => none) key 3 w t1).2
          key 3 w t2).2 key 3 w t3).2 ∧
      (checkRate (checkRate (checkRate (checkRate (checkRate (fun _ => none) key 3 w t1).2
        key 3 w t2).2 key 3 w t3).2 key 3 w t4).2 key 3 w t5).1 = true) := by
  constructor
  · intro st key maxAttempts windowMs now
    exact ⟨checkRate_init st key maxAttempts windowMs now,
      fun r hr hle hlt => checkRate_incr st key maxAttempts windowMs now r hr hle hlt,
      fun r hr hle hge => checkRate_reject st key maxAttempts windowMs now r hr hle hge⟩
  · intro key w t1 t2 t3 t4 t5 h2 h3 h4 h5
    have hc1 := checkRate_init (fun _ => none) key 3 w t1 (Or.inl rfl)
    have hs1 : (checkRate (fun _ => none) key 3 w t1).2 key = some ⟨1, t1 + w⟩ := by
      rw [hc1]
      simp
    have hc2 := checkRate_incr _ key 3 w t2 ⟨1, t1 + w⟩ hs1 (by simpa using h2) (by norm_num)
    have hs2 : (checkRate (checkRate (fun _ => none) key 3 w t1).2 key 3 w t2).2 key =
        some ⟨2, t1 + w⟩ := by
      rw [hc2]
      simp
    have hc3 := checkRate_incr _ key 3 w t3 ⟨2, t1 + w⟩ hs2 (by simpa using h3) (by norm_num)
    have hs3 : (checkRate (checkRate (checkRate (fun _ => none) key 3 w t1).2
        key 3 w t2).2 key 3 w t3).2 key = some ⟨3, t1 + w⟩ := by
      rw [hc3]
      simp
    have hc4 := checkRate_reject _ key 3 w t4 ⟨3, t1 + w⟩ hs3 (by simpa using h4) (by norm_num)
    have hs4 : (checkRate (checkRate (checkRate (checkRate (fun _ => none) key 3 w t1).2
        key 3 w t2).2 key 3 w t3).2 key 3 w t4).2 key = some ⟨3, t1 + w⟩ := by
      rw [hc4]
      exact hs3
    have hc5 := checkRate_init _ key 3 w t5 (Or.inr ⟨⟨3, t1 + w⟩, hs4, by simpa using h5⟩)
    refine ⟨by rw [hc1], by rw [hc2], by rw [hc3], by rw [hc4], by rw [hc4], by rw [hc5]⟩

/-- Witness for C5: the four-then-reset scenario at key `k` with a 100 ms
window starting at time 0, reset observed at time 101. -/
theorem checkRate_fixed_window_witness :
    (checkRate (fun _ => none) "k" 3 100 0).1 = true ∧
    (checkRate (checkRate (fun _ => none) "k" 3 100 0).2 "k" 3 100 1).1 = true ∧
    (checkRate (checkRate (checkRate (fun _ => none) "k" 3 100 0).2 "k" 3 100 1).2
      "k" 3 100 2).1 = true ∧
    (checkRate (checkRate (checkRate (checkRate (fun _ => none) "k" 3 100 0).2
      "k" 3 100 1).2 "k" 3 100 2).2 "k" 3 100 3).1 = false ∧
    (checkRate (checkRate (checkRate (checkRate (fun _ => none) "k" 3 100 0).2
      "k" 3 100 1).2 "k" 3 100 2).2 "k" 3 100 3).2 =
      (checkRate (checkRate (checkRate (fun _ => none) "k" 3 100 0).2
        "k" 3 100 1).2 "k" 3 100 2).2 ∧
    (checkRate (checkRate (checkRate (checkRate (checkRate (fun _ => none) "k" 3 100 0).2
      "k" 3 100 1).2 "k" 3 100 2).2 "k" 3 100 3).2 "k" 3 100 101).1 = true :=
  checkRate_fixed_window.2 "k" 100 0 1 2 3 101
    (by decide) (by decide) (by decide) (by decide)

/-! ## Claim theorems: the login handler's email keys -/

/-- C3 (amended): the per-email rate-limit key is built from the
lower-cased — but not trimmed — email, so attempts whose emails differ
only in letter case hit the same counter (the limiter receives the same
key), while the credential lookup normalises with lower-casing *and*
trimming. -/
theorem emailRateLimitKey_case_insensitive :
    (∀ e : String, emailRateLimitKey e = "login:email:" ++ jsToLowerCase e) ∧
    (∀ e1 e2 : String, jsToLowerCase e1 = jsToLowerCase e2 →
      emailRateLimitKey e1 = emailRateLimitKey e2) ∧
    (∀ (st : String → Option RateRecord) (maxAttempts windowMs now : Nat) (e1 e2 : String),
      jsToLowerCase e1 = jsToLowerCase e2 →
      checkRate st (emailRateLimitKey e1) maxAttempts windowMs now =
        checkRate st (emailRateLimitKey e2) maxAttempts windowMs now) ∧
    (∀ e : String, loginLookupEmail e = jsTrim (jsToLowerCase e)) := by
  have hkey : ∀ e1 e2 : String, jsToLowerCase e1 = jsToLowerCase e2 →
      emailRateLimitKey e1 = emailRateLimitKey e2 := by
    intro e1 e2 h
    simp [emailRateLimitKey, h]
  exact ⟨fun e => rfl, hkey,
    fun st maxAttempts windowMs now e1 e2 h => by rw [hkey e1 e2 h],
    fun e => rfl⟩

/-- Witness for the amended C3: two emails differing only in case produce
the same rate-limit key. -/
theorem emailRateLimitKey_case_insensitive_witness :
    emailRateLimitKey "A@B.com" = emailRateLimitKey "a@b.com" :=
  emailRateLimitKey_case_insensitive.2.1 "A@B.com" "a@b.com" (by decide)

/-- C3 counterexample: two email fields that differ only in surrounding
whitespace (and case) are normalised to the same email for the credential
lookup but produce different per-email rate-limit keys — the key omits the
trim, contradicting the claim. -/
theorem emailRateLimitKey_whitespace_counterexample :
    loginLookupEmail " Alice@Example.com" = loginLookupEmail "alice@example.com" ∧
    emailRateLimitKey " Alice@Example.com" ≠ emailRateLimitKey "alice@example.com" :=
  ⟨by decide, by decide⟩

/-! ## Claim theorems: InputValidator -/

theorem fieldErrors_falsy (data : String → JSValue) (rule : ValidationRule)
    (h : (data rule.field).truthy = false) :
    fieldErrors data rule =
      if rule.required then [rule.field ++ " is required"] else [] := by
  cases hr : rule.required <;> simp [fieldErrors, h, hr]

/-- C10: when every validated field holds a falsy value (empty string, 0,
null, undefined or false), only the `required` rules contribute errors —
the type, minLength, maxLength and pattern checks are all skipped — and
the map validates successfully exactly when no rule is `required`. -/
theorem validateInput_falsy_only_required (data : String → JSValue)
    (rules : List ValidationRule)
    (hfalsy : ∀ r ∈ rules, (data r.field).truthy = false) :
    (validateInput data rules).errors =
      (rules.filter (fun r => r.required)).map (fun r => r.field ++ " is required") ∧
    ((validateInput data rules).isValid = true ↔ ∀ r ∈ rules, r.required = false) := by
  have herr : ∀ rs : List ValidationRule, (∀ r ∈ rs, (data r.field).truthy = false) →
      (rs.map (fieldErrors data)).flatten =
        (rs.filter (fun r => r.required)).map (fun r => r.field ++ " is required") := by
    intro rs
    induction rs with
    | nil => intro _; simp
    | cons r rest ih =>
      intro hall
      have hr := hall r (by simp)
      have ihh := ih (fun x hx => hall x (by simp [hx]))
      cases hreq : r.required <;>
        simp [fieldErrors_falsy data r hr, hreq, List.filter_cons, ihh]
  have he := herr rules hfalsy
  constructor
  · simp [validateInput, he]
  · simp only [validateInput, List.isEmpty_iff, he, List.map_eq_nil_iff,
      List.filter_eq_nil_iff]
    constructor
    · intro hv r hrr
      have := hv r hrr
      simp at this
      exact this
    · intro hv r hrr
      simp [hv r hrr]

/-- Witness for C10: a present-but-empty required email plus an absent
optional field yield exactly the required-error and an invalid result. -/
theorem validateInput_falsy_only_required_witness :
    (validateInput witnessValidationData witnessValidationRules).errors =
      ["email is required"] ∧
    (validateInput witnessValidationData witnessValidationRules).isValid = false := by
  have h := validateInput_falsy_only_required witnessValidationData witnessValidationRules
    (by
      intro r hr
      simp only [witnessValidationRules, List.mem_cons, List.not_mem_nil, or_false] at hr
      rcases hr with rfl | rfl <;> rfl)
  refine ⟨by rw [h.1]; rfl, ?_⟩
  rcases hv : (validateInput witnessValidationData witnessValidationRules).isValid with _ | _
  · rfl
  · exfalso
    have hreq := h.2.mp hv ⟨"email", true, some .email, some 5, none, none⟩
      (by simp [witnessValidationRules])
    simp at hreq

end TanstackAuth
